import Mathlib

/-
Verification of the fractus escape-time fractal renderer
(src/dist/fractus.js) against its natural-language specification.

The embedding mirrors the source file:
  * JS numbers are modelled as elements of a linear ordered field `K`
    (instantiated at `ℝ` in the theorems); a `complex` is a pair `K × K`.
  * Pure functions (`cAdd`, `cMult`, `cAbs2`, `cAbs`, `smoothIters`,
    `makePhasedColorLoop`, `pxIndex2Coord`, `pxCoord2CompTile`, `tile2Comp`,
    `pixelIndexToComp`) become Lean functions of the same names.
  * The mutable globals `frac_params.{vw,vh,bl,max_iters}` become an explicit
    record `FracState` threaded through the functions that read them; the
    canvas dimensions `draw_area.width/height` become explicit parameters
    `W`, `H`.
  * The per-pixel for-loop inside `genFractal` becomes the structural
    recursion `iterLoop` (fuel = remaining loop iterations, i.e.
    `max_iters - tally`); the outer pixel loop becomes `renderLoop` acting
    on the image data modelled as a `List K` of channel values.
-/

namespace Fractus

variable {K : Type} [LinearOrderedField K]

/-- `type complex = [number, number]` from the source. -/
abbrev Cplx (K : Type) := K × K

/-- `function cAdd(z1, z2)`. -/
def cAdd (z1 z2 : Cplx K) : Cplx K :=
  (z1.1 + z2.1, z1.2 + z2.2)

/-- `function cMult(z1, z2)`. -/
def cMult (z1 z2 : Cplx K) : Cplx K :=
  (z1.1 * z2.1 - z1.2 * z2.2, z1.1 * z2.2 + z1.2 * z2.1)

/-- `function cAbs2(z)`: `z[0]**2 + z[1]**2`. -/
def cAbs2 (z : Cplx K) : K :=
  z.1 ^ 2 + z.2 ^ 2

/-- `function cAbs(z)`: `Math.sqrt(cAbs2(z))`. -/
noncomputable def cAbs (z : Cplx ℝ) : ℝ :=
  Real.sqrt (cAbs2 z)

/-- RGBA channel quadruple, `type color = [number, number, number, number]`. -/
abbrev Color (K : Type) := K × K × K × K

/-- `function smoothIters(iters, z)`:
`iters + 1 - Math.log(2) / cAbs(z) / Math.log(2)`. -/
noncomputable def smoothIters (iters : ℝ) (z : Cplx ℝ) : ℝ :=
  iters + 1 - Real.log 2 / cAbs z / Real.log 2

/-- `type PCLChannelParams = [number, number, number?]`:
frequency, phase, minimum (the source defaults a missing minimum to 0;
we model the already-defaulted triple). -/
abbrev PCLChannelParams (K : Type) := K × K × K

/-- `type PCLParams`: one channel parameter triple per RGB channel. -/
abbrev PCLParams (K : Type) :=
  PCLChannelParams K × PCLChannelParams K × PCLChannelParams K

/-- One arrow body of the `.map` inside `makePhasedColorLoop`:
`Math.sin(f*si + p)*(255 - min) + min`. -/
noncomputable def pclChannel (ch : PCLChannelParams ℝ) (si : ℝ) : ℝ :=
  Real.sin (ch.1 * si + ch.2.1) * (255 - ch.2.2) + ch.2.2

/-- `function makePhasedColorLoop(params)`: computes the smoothed index
`si = smoothIters(i, z)` and applies the per-channel sine formula to the
three RGB channels, appending alpha `255`. -/
noncomputable def makePhasedColorLoop (params : PCLParams ℝ) :
    ℕ → Cplx ℝ → Color ℝ :=
  fun i z =>
    let si := smoothIters (i : ℝ) z
    (pclChannel params.1 si, pclChannel params.2.1 si,
     pclChannel params.2.2 si, 255)

/-- `color_funcs.whiteEscape`: always `[255, 255, 255, 255]`. -/
def whiteEscape : ℕ → Cplx K → Color K :=
  fun _ _ => (255, 255, 255, 255)

/-- `color_funcs.pcl`: the demo phased color loop with parameters
`[[0.016, 4, 25], [0.13, 2, 25], [0.01, 1, 25]]`. -/
noncomputable def pcl : ℕ → Cplx ℝ → Color ℝ :=
  makePhasedColorLoop ((0.016, 4, 25), (0.13, 2, 25), (0.01, 1, 25))

end Fractus

namespace Fractus

variable {K : Type} [LinearOrderedField K] [FloorRing K]

/-- JS `%` on the nonnegative operands used by the source:
`a % b = a - b * Math.trunc(a / b)`, which for `a ≥ 0`, `b ≥ 0`
is `a - b * ⌊a / b⌋`. -/
def jsMod (a b : K) : K :=
  a - b * (⌊a / b⌋ : ℤ)

/-- `function pxCoord2Index(coord)`: `4 * (y * draw_area.width + x)`. -/
def pxCoord2Index (W : ℕ) (coord : K × K) : K :=
  4 * (coord.2 * (W : K) + coord.1)

/-- `function pxIndex2Coord(index)`: `n = index / 4`, `x = n % width`,
`y = (n - x) / width`. -/
def pxIndex2Coord (W : ℕ) (index : ℕ) : K × K :=
  let n : K := (index : K) / 4
  let x : K := jsMod n (W : K)
  (x, (n - x) / (W : K))

/-- `function pxCoord2CompTile(pxcoord)`: `[px, draw_area.height - py]`. -/
def pxCoord2CompTile (H : ℕ) (pxcoord : K × K) : Cplx K :=
  (pxcoord.1, (H : K) - pxcoord.2)

/-- `function compTile2PxCoord(tile)`: `[tx, draw_area.height - ty]`. -/
def compTile2PxCoord (H : ℕ) (tile : Cplx K) : K × K :=
  (tile.1, (H : K) - tile.2)

/-- The mutable numeric fields of the global `frac_params`
(`vw`, `vh`, `bl`, `max_iters`); the two function-valued fields
(`iterFunc`, `colorFunc`) are passed separately. -/
structure FracState (K : Type) where
  vw : K
  vh : K
  bl : Cplx K
  max_iters : ℕ

/-- The initial value of `frac_params`:
`vw = 4`, `vh = 2`, `bl = [-3, -1]`, `max_iters = 1000`. -/
def defaultState : FracState K :=
  ⟨4, 2, (-3, -1), 1000⟩

/-- `frac_params.iterFunc`: `(z, c) => cAdd(cMult(z, z), c)`. -/
def mandelMap (z c : Cplx K) : Cplx K :=
  cAdd (cMult z z) c

/-- `function tile2Comp(tile)`:
`[bl[0] + (vw/width)*tx, bl[1] + (vh/height)*ty]`. -/
def tile2Comp (st : FracState K) (W H : ℕ) (tile : Cplx K) : Cplx K :=
  (st.bl.1 + st.vw / (W : K) * tile.1,
   st.bl.2 + st.vh / (H : K) * tile.2)

/-- `function pixelIndexToComp(index)`. -/
def pixelIndexToComp (st : FracState K) (W H : ℕ) (index : ℕ) : Cplx K :=
  tile2Comp st W H (pxCoord2CompTile H (pxIndex2Coord W index))

end Fractus

namespace Fractus

variable {K : Type} [LinearOrderedField K]

/-- The inner for-loop of `genFractal`:
`for (; tally < max_iters; tally++) { z = iterFunc(z, c); if (cAbs2(z) > 4) break; }`.
The fuel argument is `max_iters - tally`, so the loop condition
`tally < max_iters` corresponds to nonzero fuel.  The first two result
components `(tally, z)` are exactly the source loop's two mutable
variables at loop exit; the third component is a ghost counter of how
many times `iterFunc` was applied, used only to state iteration bounds. -/
def iterLoop (f : Cplx K → Cplx K → Cplx K) (c : Cplx K) :
    ℕ → ℕ → Cplx K → ℕ × Cplx K × ℕ
  | 0, tally, z => (tally, z, 0)
  | n + 1, tally, z =>
    let z1 := f z c
    if cAbs2 z1 > 4 then (tally, z1, 1)
    else
      let r := iterLoop f c n (tally + 1) z1
      (r.1, r.2.1, r.2.2 + 1)

/-- The engine run for one pixel: the loop starting at `z = [0, 0]`,
`tally = 0` with budget `m`. -/
def engineRun (f : Cplx K → Cplx K → Cplx K) (c : Cplx K) (m : ℕ) :
    ℕ × Cplx K × ℕ :=
  iterLoop f c m 0 (0, 0)

/-- The value of `tally` at loop exit. -/
def engineTally (f : Cplx K → Cplx K → Cplx K) (c : Cplx K) (m : ℕ) : ℕ :=
  (engineRun f c m).1

/-- The value of `z` at loop exit. -/
def engineZ (f : Cplx K → Cplx K → Cplx K) (c : Cplx K) (m : ℕ) : Cplx K :=
  (engineRun f c m).2.1

/-- Ghost count of `iterFunc` applications performed by the loop. -/
def engineApps (f : Cplx K → Cplx K → Cplx K) (c : Cplx K) (m : ℕ) : ℕ :=
  (engineRun f c m).2.2

/-- The spec's `IterationResult`: `Captured`, or `Escaped` with the raw
count and the final iterate. -/
inductive IterResult (K : Type) where
  | Captured : IterResult K
  | Escaped (count : ℕ) (zfinal : Cplx K) : IterResult K
deriving DecidableEq

/-- The raw escape count of a result, `none` when captured. -/
def escapeCount : IterResult K → Option ℕ
  | .Captured => none
  | .Escaped t _ => some t

/-- The branch `if (tally === frac_params.max_iters)` of `genFractal`,
read as producing the spec's `IterationResult`. -/
def engineResult (f : Cplx K → Cplx K → Cplx K) (c : Cplx K) (m : ℕ) :
    IterResult K :=
  if engineTally f c m = m then .Captured
  else .Escaped (engineTally f c m) (engineZ f c m)

/-- The per-pixel body of `genFractal` after the loop:
captured pixels get `[0, 0, 0, 255]`, escaped pixels get
`colorFunc(tally, c)` (note: the source passes the seed `c`,
not the final iterate). -/
def renderPixel (colorF : ℕ → Cplx K → Color K)
    (iterF : Cplx K → Cplx K → Cplx K) (m : ℕ) (c : Cplx K) : Color K :=
  let tally := engineTally iterF c m
  if tally = m then (0, 0, 0, 255) else colorF tally c

/-- The `n`-th iterate of the map from `z = (0, 0)`:
`orbit f c k` is the value of `z` after `k` applications of `f`. -/
def orbit (f : Cplx K → Cplx K → Cplx K) (c : Cplx K) : ℕ → Cplx K
  | 0 => (0, 0)
  | k + 1 => f (orbit f c k) c

end Fractus

namespace Fractus

variable {K : Type} [LinearOrderedField K] [FloorRing K]

/-- `setPixelColor` inside `genFractal`: writes the four channel values at
consecutive indices (`List.set` is a no-op out of bounds, matching a typed
array's ignored out-of-bounds writes). -/
def setPixelColor (data : List K) (index : ℕ) (col : Color K) : List K :=
  (((data.set index col.1).set (index + 1) col.2.1).set
      (index + 2) col.2.2.1).set (index + 3) col.2.2.2

/-- The color computed for byte index `pxi` in `genFractal`:
seed `c = pixelIndexToComp(pxi)`, then the engine and the color branch. -/
def pixelColor (st : FracState K) (iterF : Cplx K → Cplx K → Cplx K)
    (colorF : ℕ → Cplx K → Color K) (W H : ℕ) (pxi : ℕ) : Color K :=
  renderPixel colorF iterF st.max_iters (pixelIndexToComp st W H pxi)

/-- The pixel for-loop of `genFractal`:
`for (let pxi = 0; pxi < imgdata.data.length; pxi += 4) { ... }`. -/
def renderLoop (st : FracState K) (iterF : Cplx K → Cplx K → Cplx K)
    (colorF : ℕ → Cplx K → Color K) (W H : ℕ) (pxi : ℕ)
    (data : List K) : List K :=
  if pxi < data.length then
    renderLoop st iterF colorF W H (pxi + 4)
      (setPixelColor data pxi (pixelColor st iterF colorF W H pxi))
  else data
termination_by data.length - pxi
decreasing_by
  simp only [setPixelColor, List.length_set]
  omega

/-- `genFractal` as a buffer transformer: the image data read from the
canvas is the input list, the stored image data is the output. -/
def genFractalData (st : FracState K) (iterF : Cplx K → Cplx K → Cplx K)
    (colorF : ℕ → Cplx K → Color K) (W H : ℕ) (data : List K) : List K :=
  renderLoop st iterF colorF W H 0 data

/-- The `draw_area` click handler: converts the pixel coordinate to a
plane coordinate, then halves `vw` and `vh` and recenters `bl`
(`bl = [comp[0] - 0.5*vw, comp[1] - 0.5*vh]` with the already-halved
`vw`, `vh`). -/
def zoomClick (st : FracState K) (W H : ℕ) (px : K × K) : FracState K :=
  let comp := tile2Comp st W H (pxCoord2CompTile H px)
  let vw := st.vw * (1 / 2)
  let vh := st.vh * (1 / 2)
  { vw := vw, vh := vh,
    bl := (comp.1 - (1 / 2) * vw, comp.2 - (1 / 2) * vh),
    max_iters := st.max_iters }

/-- The reset button handler: restores `vw = 4`, `vh = 2`, `bl = [-3, -1]`,
`max_iters = 1000`. -/
def resetClick (_ : FracState K) : FracState K :=
  ⟨4, 2, (-3, -1), 1000⟩

end Fractus

namespace Fractus

variable {K : Type} [LinearOrderedField K]

lemma orbit_zero (f : Cplx K → Cplx K → Cplx K) (c : Cplx K) :
    orbit f c 0 = (0, 0) := rfl

lemma orbit_succ (f : Cplx K → Cplx K → Cplx K) (c : Cplx K) (k : ℕ) :
    orbit f c (k + 1) = f (orbit f c k) c := rfl

lemma iterLoop_no_escape (f : Cplx K → Cplx K → Cplx K) (c : Cplx K) (n : ℕ) :
    ∀ t : ℕ, (∀ j, t < j → j ≤ t + n → cAbs2 (orbit f c j) ≤ 4) →
      iterLoop f c n t (orbit f c t) = (t + n, orbit f c (t + n), n) := by
  induction n with
  | zero => intro t _; simp [iterLoop]
  | succ n ih =>
    intro t h
    have h1 : cAbs2 (orbit f c (t + 1)) ≤ 4 := h (t + 1) (by omega) (by omega)
    have hstep : f (orbit f c t) c = orbit f c (t + 1) := rfl
    have harith : t + 1 + n = t + (n + 1) := by omega
    simp only [iterLoop, hstep]
    rw [if_neg (by exact not_lt.mpr h1)]
    rw [ih (t + 1) (fun j hj1 hj2 => h j (by omega) (by omega))]
    rw [harith]

lemma iterLoop_escape (f : Cplx K → Cplx K → Cplx K) (c : Cplx K) (n : ℕ) :
    ∀ t k : ℕ, t < k → k ≤ t + n → 4 < cAbs2 (orbit f c k) →
      (∀ j, t < j → j < k → cAbs2 (orbit f c j) ≤ 4) →
      iterLoop f c n t (orbit f c t) = (k - 1, orbit f c k, k - t) := by
  induction n with
  | zero => intro t k h1 h2 _ _; omega
  | succ n ih =>
    intro t k hk1 hk2 hesc hmin
    have hstep : f (orbit f c t) c = orbit f c (t + 1) := rfl
    rcases eq_or_lt_of_le (Nat.succ_le_of_lt hk1) with heq | hlt
    · -- the escape happens at this very application
      simp only [iterLoop, hstep]
      rw [← heq] at hesc ⊢
      rw [if_pos hesc]
      have h1 : t + 1 - 1 = t := by omega
      have h2 : t + 1 - t = 1 := by omega
      rw [h1, h2]
    · -- no escape yet; recurse
      have h1 : cAbs2 (orbit f c (t + 1)) ≤ 4 := hmin (t + 1) (by omega) hlt
      simp only [iterLoop, hstep]
      rw [if_neg (by exact not_lt.mpr h1)]
      rw [ih (t + 1) k hlt (by omega) hesc (fun j hj1 hj2 => hmin j (by omega) hj2)]
      have harith : k - (t + 1) + 1 = k - t := by omega
      rw [harith]

lemma iterLoop_bounds (f : Cplx K → Cplx K → Cplx K) (c : Cplx K) (n : ℕ) :
    ∀ (t : ℕ) (z : Cplx K),
      t ≤ (iterLoop f c n t z).1 ∧ (iterLoop f c n t z).1 ≤ t + n ∧
      ((iterLoop f c n t z).1 = t + n → (iterLoop f c n t z).2.2 = n) ∧
      ((iterLoop f c n t z).1 < t + n →
        (iterLoop f c n t z).2.2 = (iterLoop f c n t z).1 - t + 1) := by
  induction n with
  | zero => intro t z; simp [iterLoop]
  | succ n ih =>
    intro t z
    simp only [iterLoop]
    by_cases hc : cAbs2 (f z c) > 4
    · rw [if_pos hc]
      dsimp only
      omega
    · rw [if_neg hc]
      dsimp only
      obtain ⟨ih1, ih2, ih3, ih4⟩ := ih (t + 1) (f z c)
      omega

lemma engineRun_no_escape (f : Cplx K → Cplx K → Cplx K) (c : Cplx K) (m : ℕ)
    (h : ∀ j, 0 < j → j ≤ m → cAbs2 (orbit f c j) ≤ 4) :
    engineRun f c m = (m, orbit f c m, m) := by
  have h2 := iterLoop_no_escape f c m 0 (fun j hj1 hj2 => h j hj1 (by omega))
  rw [Nat.zero_add] at h2
  exact h2

lemma engineRun_escape (f : Cplx K → Cplx K → Cplx K) (c : Cplx K) (m k : ℕ)
    (hk1 : 0 < k) (hk2 : k ≤ m) (hesc : 4 < cAbs2 (orbit f c k))
    (hmin : ∀ j, 0 < j → j < k → cAbs2 (orbit f c j) ≤ 4) :
    engineRun f c m = (k - 1, orbit f c k, k) := by
  have h2 := iterLoop_escape f c m 0 k hk1 (by omega) hesc
    (fun j hj1 hj2 => hmin j hj1 hj2)
  have h3 : k - 0 = k := by omega
  rw [h3] at h2
  exact h2

lemma engineTally_le (f : Cplx K → Cplx K → Cplx K) (c : Cplx K) (m : ℕ) :
    engineTally f c m ≤ m := by
  have hb := iterLoop_bounds f c m 0 (0, 0)
  have : engineTally f c m = (iterLoop f c m 0 (0, 0)).1 := rfl
  omega

lemma engineApps_of_tally_eq (f : Cplx K → Cplx K → Cplx K) (c : Cplx K) (m : ℕ)
    (h : engineTally f c m = m) : engineApps f c m = m := by
  have hb := iterLoop_bounds f c m 0 (0, 0)
  have h1 : engineTally f c m = (iterLoop f c m 0 (0, 0)).1 := rfl
  have h2 : engineApps f c m = (iterLoop f c m 0 (0, 0)).2.2 := rfl
  rw [h2]
  exact hb.2.2.1 (by omega)

lemma engineApps_of_tally_lt (f : Cplx K → Cplx K → Cplx K) (c : Cplx K) (m : ℕ)
    (h : engineTally f c m < m) : engineApps f c m = engineTally f c m + 1 := by
  have hb := iterLoop_bounds f c m 0 (0, 0)
  have h1 : engineTally f c m = (iterLoop f c m 0 (0, 0)).1 := rfl
  have h2 : engineApps f c m = (iterLoop f c m 0 (0, 0)).2.2 := rfl
  rw [h2, hb.2.2.2 (by omega), ← h1]
  omega

lemma engineResult_captured_iff (f : Cplx K → Cplx K → Cplx K) (c : Cplx K) (m : ℕ) :
    engineResult f c m = .Captured ↔
      ∀ k, 0 < k → k ≤ m → cAbs2 (orbit f c k) ≤ 4 := by
  constructor
  · intro hcap
    by_contra hex
    push_neg at hex
    obtain ⟨k, hk0, hkm, hk4⟩ := hex
    have hP : ∃ j, 0 < j ∧ j ≤ m ∧ 4 < cAbs2 (orbit f c j) := ⟨k, hk0, hkm, hk4⟩
    classical
    have hspec := Nat.find_spec hP
    set k0 := Nat.find hP with hk0def
    have hmin : ∀ j, 0 < j → j < k0 → cAbs2 (orbit f c j) ≤ 4 := by
      intro j hj0 hjk
      by_contra hj4
      push_neg at hj4
      exact Nat.find_min hP hjk ⟨hj0, by omega, hj4⟩
    have hrun := engineRun_escape f c m k0 hspec.1 hspec.2.1 hspec.2.2 hmin
    have ht : engineTally f c m = k0 - 1 := by
      simp [engineTally, hrun]
    have hne : engineTally f c m ≠ m := by
      have := hspec.1
      have := hspec.2.1
      omega
    simp [engineResult, hne] at hcap
  · intro h
    have hrun := engineRun_no_escape f c m h
    have ht : engineTally f c m = m := by simp [engineTally, hrun]
    simp [engineResult, ht]

lemma engineResult_escape (f : Cplx K → Cplx K → Cplx K) (c : Cplx K) (m k : ℕ)
    (hk1 : 0 < k) (hk2 : k ≤ m) (hesc : 4 < cAbs2 (orbit f c k))
    (hmin : ∀ j, 0 < j → j < k → cAbs2 (orbit f c j) ≤ 4) :
    engineResult f c m = .Escaped (k - 1) (orbit f c k) := by
  have hrun := engineRun_escape f c m k hk1 hk2 hesc hmin
  have ht : engineTally f c m = k - 1 := by simp [engineTally, hrun]
  have hz : engineZ f c m = orbit f c k := by simp [engineZ, hrun]
  have hne : ¬(k - 1 = m) := by omega
  simp [engineResult, ht, hz, hne]

lemma engineTally_of_escaped (f : Cplx K → Cplx K → Cplx K) (c : Cplx K)
    (m t : ℕ) (z : Cplx K) (h : engineResult f c m = .Escaped t z) :
    engineTally f c m = t ∧ engineZ f c m = z ∧ engineTally f c m ≠ m := by
  by_cases hm : engineTally f c m = m
  · simp [engineResult, hm] at h
  · simp [engineResult, hm] at h
    exact ⟨h.1, h.2, hm⟩

end Fractus

namespace Fractus

variable {K : Type} [LinearOrderedField K]

lemma engineApps_le (f : Cplx K → Cplx K → Cplx K) (c : Cplx K) (m : ℕ) :
    engineApps f c m ≤ m := by
  have hle := engineTally_le f c m
  by_cases h : engineTally f c m = m
  · rw [engineApps_of_tally_eq f c m h]
  · rw [engineApps_of_tally_lt f c m (by omega)]
    omega

lemma mandel_orbit1_three : orbit mandelMap ((3 : ℝ), 0) 1 = ((3 : ℝ), 0) := by
  show orbit mandelMap ((3 : ℝ), 0) (0 + 1) = ((3 : ℝ), 0)
  rw [orbit_succ, orbit_zero]
  simp [mandelMap, cAdd, cMult]

lemma mandel_orbit1_two : orbit mandelMap ((2 : ℝ), 0) 1 = ((2 : ℝ), 0) := by
  show orbit mandelMap ((2 : ℝ), 0) (0 + 1) = ((2 : ℝ), 0)
  rw [orbit_succ, orbit_zero]
  simp [mandelMap, cAdd, cMult]

lemma mandel_orbit2_two : orbit mandelMap ((2 : ℝ), 0) 2 = ((6 : ℝ), 0) := by
  show orbit mandelMap ((2 : ℝ), 0) (1 + 1) = ((6 : ℝ), 0)
  rw [orbit_succ, mandel_orbit1_two]
  simp [mandelMap, cAdd, cMult]
  norm_num

lemma mandel_orbit_zero_seed (k : ℕ) :
    orbit mandelMap ((0 : ℝ), 0) k = ((0 : ℝ), 0) := by
  induction k with
  | zero => rfl
  | succ k ih =>
    rw [orbit_succ, ih]
    simp [mandelMap, cAdd, cMult]

lemma engineResult_seed_three (m : ℕ) (hm : 1 ≤ m) :
    engineResult mandelMap ((3 : ℝ), 0) m = .Escaped 0 ((3 : ℝ), 0) := by
  have h := engineResult_escape mandelMap ((3 : ℝ), 0) m 1 (by norm_num) hm
    (by rw [mandel_orbit1_three]; norm_num [cAbs2])
    (by intro j hj1 hj2; omega)
  rw [mandel_orbit1_three] at h
  exact h

lemma engineResult_seed_two :
    engineResult mandelMap ((2 : ℝ), 0) 1000 = .Escaped 1 ((6 : ℝ), 0) := by
  have h := engineResult_escape mandelMap ((2 : ℝ), 0) 1000 2 (by norm_num)
    (by norm_num)
    (by rw [mandel_orbit2_two]; norm_num [cAbs2])
    (by
      intro j hj1 hj2
      have hj : j = 1 := by omega
      rw [hj, mandel_orbit1_two]
      norm_num [cAbs2])
  rw [mandel_orbit2_two] at h
  exact h

lemma engineResult_seed_zero (m : ℕ) :
    engineResult mandelMap ((0 : ℝ), 0) m = .Captured := by
  refine (engineResult_captured_iff mandelMap ((0 : ℝ), 0) m).mpr ?_
  intro k hk1 hk2
  rw [mandel_orbit_zero_seed]
  norm_num [cAbs2]

/-- Claim C4: for every seed, map, and positive maxIterations, the engine
starts from z = (0,0), applies z ← map(z, seed), tests normSquared(z) > 4
strictly after each application (only iterates `orbit f c k` with k ≥ 1
are ever tested, never the pre-seed `orbit f c 0 = (0,0)`), returns
Captured exactly when all maxIterations applications complete without the
test ever holding, and returns Escaped (stopping at the first k whose
iterate passes the test). -/
theorem claim_C4_engine_algorithm (f : Cplx ℝ → Cplx ℝ → Cplx ℝ) (c : Cplx ℝ)
    (m : ℕ) (_hm : 0 < m) :
    (engineResult f c m = .Captured ↔
      ∀ k, 0 < k → k ≤ m → cAbs2 (orbit f c k) ≤ 4) ∧
    (∀ k, 0 < k → k ≤ m → 4 < cAbs2 (orbit f c k) →
      (∀ j, 0 < j → j < k → cAbs2 (orbit f c j) ≤ 4) →
      engineResult f c m = .Escaped (k - 1) (orbit f c k)) :=
  ⟨engineResult_captured_iff f c m,
   fun k hk1 hk2 hesc hmin => engineResult_escape f c m k hk1 hk2 hesc hmin⟩

theorem claim_C4_witness :
    engineResult mandelMap ((3 : ℝ), 0) 2 = .Escaped 0 ((3 : ℝ), 0) := by
  have h := (claim_C4_engine_algorithm mandelMap ((3 : ℝ), 0) 2 (by norm_num)).2
    1 (by norm_num) (by norm_num)
    (by rw [mandel_orbit1_three]; norm_num [cAbs2])
    (by intro j hj1 hj2; omega)
  rw [mandel_orbit1_three] at h
  exact h

/-- Claim C8: for seed c = (0,0) with iterate z² + c, the engine returns
Captured for every maxIterations ≥ 1 (the orbit stays at (0,0), so the
escape test never holds). -/
theorem claim_C8_zero_seed_captured (m : ℕ) (_hm : 1 ≤ m) :
    engineResult mandelMap ((0 : ℝ), 0) m = .Captured :=
  engineResult_seed_zero m

theorem claim_C8_witness :
    engineResult mandelMap ((0 : ℝ), 0) 5 = .Captured :=
  claim_C8_zero_seed_captured 5 (by norm_num)

/-- Claim C3 counterexample: for seed c = (3,0) with iterate z² + c and
budget 1000, the engine escapes at the very first map application but the
count it returns (and passes to the color function) is 0, not the 1-based
value 1 asserted by the claim. -/
theorem claim_C3_counterexample :
    escapeCount (engineResult mandelMap ((3 : ℝ), 0) 1000) ≠ some 1 := by
  rw [engineResult_seed_three 1000 (by norm_num)]
  simp [escapeCount]

/-- Claim C3 amended: the count returned on escape is 0-based — when the
engine stops with Escaped count t it has completed exactly t + 1 map
applications; concretely seed (3,0) yields Escaped with count 0 at the
first application. -/
theorem claim_C3_amended (f : Cplx ℝ → Cplx ℝ → Cplx ℝ) (c : Cplx ℝ)
    (m t : ℕ) (z : Cplx ℝ) (h : engineResult f c m = .Escaped t z) :
    engineApps f c m = t + 1 := by
  obtain ⟨ht, _hz, hne⟩ := engineTally_of_escaped f c m t z h
  have hle := engineTally_le f c m
  have happ := engineApps_of_tally_lt f c m (by omega)
  omega

theorem claim_C3_amended_witness :
    engineApps mandelMap ((3 : ℝ), 0) 1000 = 0 + 1 :=
  claim_C3_amended mandelMap ((3 : ℝ), 0) 1000 0 ((3 : ℝ), 0)
    (engineResult_seed_three 1000 (by norm_num))

/-- Claim C6: when the engine result is Captured, the renderer writes the
fixed sentinel color (0,0,0,255) and the configured color function is
never consulted (the output is the same for any two color functions). -/
theorem claim_C6_captured_black (iterF : Cplx ℝ → Cplx ℝ → Cplx ℝ) (m : ℕ)
    (c : Cplx ℝ) (h : engineResult iterF c m = .Captured)
    (colorF colorG : ℕ → Cplx ℝ → Color ℝ) :
    renderPixel colorF iterF m c = (0, 0, 0, 255) ∧
    renderPixel colorF iterF m c = renderPixel colorG iterF m c := by
  have ht : engineTally iterF c m = m := by
    by_contra hne
    simp [engineResult, hne] at h
  constructor <;> simp [renderPixel, ht]

theorem claim_C6_witness :
    renderPixel pcl mandelMap 1 ((0 : ℝ), 0) = (0, 0, 0, 255) ∧
    renderPixel pcl mandelMap 1 ((0 : ℝ), 0) =
      renderPixel whiteEscape mandelMap 1 ((0 : ℝ), 0) :=
  claim_C6_captured_black mandelMap 1 ((0 : ℝ), 0) (engineResult_seed_zero 1)
    pcl whiteEscape

end Fractus

namespace Fractus

variable {K : Type} [LinearOrderedField K] [FloorRing K]

/-- Total number of `iterFunc` applications performed by a full render
pass: one engine run per pixel of the W × H buffer (pixel k has byte
index 4·k). -/
def totalApps (st : FracState K) (iterF : Cplx K → Cplx K → Cplx K)
    (W H : ℕ) : ℕ :=
  ((List.range (W * H)).map
    (fun k => engineApps iterF (pixelIndexToComp st W H (4 * k))
      st.max_iters)).sum

/-- Claim C10: for every seed and positive maxIterations the engine loop
performs at most maxIterations map applications, and hence a full render
pass over a finite W × H buffer performs at most W·H·maxIterations
applications (the render functions are total by construction). -/
theorem claim_C10_termination (iterF : Cplx ℝ → Cplx ℝ → Cplx ℝ)
    (m : ℕ) (_hm : 0 < m) :
    (∀ c : Cplx ℝ, engineApps iterF c m ≤ m) ∧
    (∀ (st : FracState ℝ) (W H : ℕ),
      totalApps st iterF W H ≤ W * H * st.max_iters) := by
  constructor
  · intro c
    exact engineApps_le iterF c m
  · intro st W H
    unfold totalApps
    have hbound : ∀ x ∈ (List.range (W * H)).map
        (fun k => engineApps iterF (pixelIndexToComp st W H (4 * k))
          st.max_iters), x ≤ st.max_iters := by
      intro x hx
      simp only [List.mem_map] at hx
      obtain ⟨k, _, hk⟩ := hx
      rw [← hk]
      exact engineApps_le iterF _ st.max_iters
    calc ((List.range (W * H)).map
        (fun k => engineApps iterF (pixelIndexToComp st W H (4 * k))
          st.max_iters)).sum
        ≤ ((List.range (W * H)).map
            (fun k => engineApps iterF (pixelIndexToComp st W H (4 * k))
              st.max_iters)).length • st.max_iters :=
          List.sum_le_card_nsmul _ _ hbound
      _ = W * H * st.max_iters := by
          simp [List.length_map, List.length_range, smul_eq_mul]

theorem claim_C10_witness :
    engineApps mandelMap ((3 : ℝ), 0) 7 ≤ 7 ∧
    totalApps (defaultState : FracState ℝ) mandelMap 1 1 ≤
      1 * 1 * (defaultState : FracState ℝ).max_iters :=
  ⟨(claim_C10_termination mandelMap 7 (by norm_num)).1 ((3 : ℝ), 0),
   (claim_C10_termination mandelMap 7 (by norm_num)).2 defaultState 1 1⟩

end Fractus

namespace Fractus

variable {K : Type} [LinearOrderedField K] [FloorRing K]

omit [LinearOrderedField K] [FloorRing K] in
lemma setPixelColor_length (data : List K) (i : ℕ) (col : Color K) :
    (setPixelColor data i col).length = data.length := by
  simp [setPixelColor]

omit [LinearOrderedField K] [FloorRing K] in
lemma setPixelColor_agree (d1 d2 : List K) (i : ℕ) (col : Color K)
    (hlen : d1.length = d2.length)
    (hagree : ∀ j, j < i → d1[j]? = d2[j]?) :
    ∀ j, j < i + 4 → (setPixelColor d1 i col)[j]? = (setPixelColor d2 i col)[j]? := by
  intro j hj
  simp only [setPixelColor, List.getElem?_set, List.length_set, hlen]
  split_ifs <;> try rfl
  exact hagree j (by omega)

omit [LinearOrderedField K] [FloorRing K] in
lemma eq_of_agree_below (d1 d2 : List K) (pxi : ℕ)
    (hlen : d1.length = d2.length) (hge : d1.length ≤ pxi)
    (hagree : ∀ j, j < pxi → d1[j]? = d2[j]?) : d1 = d2 := by
  apply List.ext_getElem?_iff.mpr
  intro j
  by_cases hj : j < pxi
  · exact hagree j hj
  · rw [List.getElem?_eq_none (by omega), List.getElem?_eq_none (by omega)]

lemma renderLoop_eq (st : FracState K) (iterF : Cplx K → Cplx K → Cplx K)
    (colorF : ℕ → Cplx K → Color K) (W H pxi : ℕ) (data : List K) :
    renderLoop st iterF colorF W H pxi data =
      if pxi < data.length then
        renderLoop st iterF colorF W H (pxi + 4)
          (setPixelColor data pxi (pixelColor st iterF colorF W H pxi))
      else data := by
  rw [renderLoop]

lemma renderLoop_congr (st : FracState K) (iterF : Cplx K → Cplx K → Cplx K)
    (colorF : ℕ → Cplx K → Color K) (W H : ℕ) :
    ∀ (n pxi : ℕ) (d1 d2 : List K), d1.length = d2.length →
      d1.length ≤ pxi + n →
      (∀ j, j < pxi → d1[j]? = d2[j]?) →
      renderLoop st iterF colorF W H pxi d1 =
        renderLoop st iterF colorF W H pxi d2 := by
  intro n
  induction n with
  | zero =>
    intro pxi d1 d2 hlen hle hagree
    rw [renderLoop_eq st iterF colorF W H pxi d1,
      renderLoop_eq st iterF colorF W H pxi d2]
    rw [if_neg (show ¬pxi < d1.length by omega),
      if_neg (show ¬pxi < d2.length by omega)]
    exact eq_of_agree_below d1 d2 pxi hlen (by omega) hagree
  | succ n ih =>
    intro pxi d1 d2 hlen hle hagree
    rw [renderLoop_eq st iterF colorF W H pxi d1,
      renderLoop_eq st iterF colorF W H pxi d2]
    by_cases hc : pxi < d1.length
    · rw [if_pos hc, if_pos (show pxi < d2.length by omega)]
      exact ih (pxi + 4) _ _
        (by simp [setPixelColor_length, hlen])
        (by simp only [setPixelColor_length]; omega)
        (setPixelColor_agree d1 d2 pxi _ hlen hagree)
    · rw [if_neg hc, if_neg (show ¬pxi < d2.length by omega)]
      exact eq_of_agree_below d1 d2 pxi hlen (by omega) hagree

/-- Claim C9: rendering the same configuration (viewport state, iterate
function, color function, maxIterations) into two buffers of the same
dimensions yields identical pixel contents: the render pass overwrites
every byte, so the output is a function of the configuration and the
buffer dimensions only, independent of the buffers' prior contents. -/
theorem claim_C9_deterministic (st : FracState ℝ)
    (iterF : Cplx ℝ → Cplx ℝ → Cplx ℝ) (colorF : ℕ → Cplx ℝ → Color ℝ)
    (W H : ℕ) (d1 d2 : List ℝ)
    (h1 : d1.length = 4 * W * H) (h2 : d2.length = 4 * W * H) :
    genFractalData st iterF colorF W H d1 =
      genFractalData st iterF colorF W H d2 := by
  unfold genFractalData
  exact renderLoop_congr st iterF colorF W H d1.length 0 d1 d2 (by omega)
    (by omega) (fun j hj => absurd hj (by omega))

theorem claim_C9_witness :
    genFractalData (defaultState : FracState ℝ) mandelMap whiteEscape 1 1
        [0, 0, 0, 0] =
      genFractalData (defaultState : FracState ℝ) mandelMap whiteEscape 1 1
        [9, 9, 9, 9] :=
  claim_C9_deterministic defaultState mandelMap whiteEscape 1 1 _ _
    (by norm_num) (by norm_num)

/-- The spec-side pixel x coordinate: `x = index/4 mod widthPx`
(stated from the spec's words, to be compared with the code chain). -/
def specPixelX (W : ℕ) (index : ℕ) : K :=
  jsMod ((index : K) / 4) (W : K)

/-- The spec-side pixel y coordinate: `y = (index/4 − x) / widthPx`
(stated from the spec's words). -/
def specPixelY (W : ℕ) (index : ℕ) : K :=
  ((index : K) / 4 - specPixelX W index) / (W : K)

/-- Claim C5: for every pixel index, buffer dimensions and viewport state,
the composed code chain pixelIndexToComp equals
originCorner + (width/widthPx · x, height/heightPx · (heightPx − y)) with
x = index/4 mod widthPx and y = (index/4 − x)/widthPx. -/
theorem claim_C5_index_to_plane (st : FracState ℝ) (W H : ℕ) (i : ℕ) :
    pixelIndexToComp st W H i =
      (st.bl.1 + st.vw / (W : ℝ) * specPixelX W i,
       st.bl.2 + st.vh / (H : ℝ) * ((H : ℝ) - specPixelY W i)) := rfl

/-- Claim C7: zoom-to-point halves the viewport dimensions and recenters
the origin corner so the clicked plane point p becomes the new center
(bl = p − (newW/2, newH/2)); concretely, a click whose plane coordinate is
(0,0) on the default viewport (e.g. pixel (3,1) on a 4×2 buffer) yields
width 2, height 1, and origin corner (−1,−0.5). -/
theorem claim_C7_zoom_to_point :
    (∀ (st : FracState ℝ) (W H : ℕ) (px : ℝ × ℝ),
      (zoomClick st W H px).vw = st.vw / 2 ∧
      (zoomClick st W H px).vh = st.vh / 2 ∧
      (zoomClick st W H px).bl.1 =
        (tile2Comp st W H (pxCoord2CompTile H px)).1 -
          (zoomClick st W H px).vw / 2 ∧
      (zoomClick st W H px).bl.2 =
        (tile2Comp st W H (pxCoord2CompTile H px)).2 -
          (zoomClick st W H px).vh / 2 ∧
      (zoomClick st W H px).bl.1 + (zoomClick st W H px).vw / 2 =
        (tile2Comp st W H (pxCoord2CompTile H px)).1 ∧
      (zoomClick st W H px).bl.2 + (zoomClick st W H px).vh / 2 =
        (tile2Comp st W H (pxCoord2CompTile H px)).2) ∧
    zoomClick (defaultState : FracState ℝ) 4 2 (3, 1) =
      ⟨2, 1, (-1, -(1 / 2)), 1000⟩ := by
  constructor
  · intro st W H px
    refine ⟨?_, ?_, ?_, ?_, ?_, ?_⟩ <;>
      simp only [zoomClick] <;> ring
  · simp only [zoomClick, defaultState, tile2Comp, pxCoord2CompTile,
      FracState.mk.injEq, Prod.mk.injEq]
    norm_num

end Fractus

namespace Fractus

lemma cAbs_two : cAbs ((2 : ℝ), 0) = 2 := by
  rw [cAbs]
  norm_num [cAbs2]
  rw [show (4 : ℝ) = 2 ^ 2 by norm_num, Real.sqrt_sq (by norm_num : (0:ℝ) ≤ 2)]

lemma cAbs_six : cAbs ((6 : ℝ), 0) = 6 := by
  rw [cAbs]
  norm_num [cAbs2]
  rw [show (36 : ℝ) = 6 ^ 2 by norm_num, Real.sqrt_sq (by norm_num : (0:ℝ) ≤ 6)]

lemma log_three_gt_one : (1 : ℝ) < Real.log 3 := by
  rw [Real.lt_log_iff_exp_lt (by norm_num : (0:ℝ) < 3)]
  calc Real.exp 1 < 2.7182818286 := Real.exp_one_lt_d9
    _ < 3 := by norm_num

lemma log_six_gt : (1.6931471803 : ℝ) < Real.log 6 := by
  have h2 : (0.6931471803 : ℝ) < Real.log 2 := Real.log_two_gt_d9
  have h3 : (1 : ℝ) < Real.log 3 := log_three_gt_one
  have h6 : Real.log 6 = Real.log 2 + Real.log 3 := by
    rw [show (6 : ℝ) = 2 * 3 by norm_num,
      Real.log_mul (by norm_num) (by norm_num)]
  linarith

lemma log_log_six_gt_half_log_two :
    Real.log 2 / 2 < Real.log (Real.log 6) := by
  have hgt := log_six_gt
  have hsq : (2 : ℝ) < Real.log 6 ^ 2 := by nlinarith
  have hkey : Real.log 2 < Real.log (Real.log 6 ^ 2) :=
    Real.log_lt_log (by norm_num) hsq
  rw [Real.log_pow] at hkey
  push_cast at hkey
  linarith

/-- The continuous index actually supplied to the phased color loop for
an escaped pixel with seed `c`: `genFractal` calls `colorFunc(tally, c)`
(passing the seed, not the final iterate), and `makePhasedColorLoop`
computes `si = smoothIters(i, z)` on its two arguments, so the index is
`smoothIters(tally, c)`. -/
noncomputable def pclIndex (iterF : Cplx ℝ → Cplx ℝ → Cplx ℝ) (m : ℕ)
    (c : Cplx ℝ) : ℝ :=
  smoothIters ((engineTally iterF c m : ℕ) : ℝ) c

/-- Claim C1 counterexample: for the escaped pixel with seed (2,0)
(raw count 1, final iterate (6,0)), the index the color mapper computes is
1 + 1 − (log 2 / 2)/log 2 = 3/2, which differs from the claim's formula
count + 1 − log(log |z_final|)/log 2 = 2 − log(log 6)/log 2. -/
theorem claim_C1_counterexample :
    pclIndex mandelMap 1000 ((2 : ℝ), 0) ≠
      ((engineTally mandelMap ((2 : ℝ), 0) 1000 : ℕ) : ℝ) + 1 -
        Real.log (Real.log (cAbs (engineZ mandelMap ((2 : ℝ), 0) 1000))) /
          Real.log 2 := by
  obtain ⟨ht, hz, _⟩ := engineTally_of_escaped mandelMap ((2 : ℝ), 0) 1000 1
    ((6 : ℝ), 0) engineResult_seed_two
  rw [ht, hz, cAbs_six]
  have hlog2 : (0 : ℝ) < Real.log 2 := Real.log_pos (by norm_num)
  have hne2 : Real.log 2 ≠ 0 := ne_of_gt hlog2
  have hL : pclIndex mandelMap 1000 ((2 : ℝ), 0) = 3 / 2 := by
    simp only [pclIndex, smoothIters, ht, cAbs_two]
    have hdiv : Real.log 2 / 2 / Real.log 2 = 1 / 2 := by
      field_simp
      ring
    rw [hdiv]
    norm_num
  rw [hL]
  have hkey := log_log_six_gt_half_log_two
  intro heq
  have hA : Real.log (Real.log 6) / Real.log 2 = 1 / 2 := by
    push_cast at heq
    linarith
  have hB : Real.log (Real.log 6) = Real.log 2 / 2 := by
    field_simp at hA
    linarith
  linarith

/-- Claim C1 amended: for every escaped pixel, the continuous index
supplied to the color mapper equals count + 1 − (log 2 / |c|)/log 2
= count + 1 − 1/|c|, a pure function of the raw count and the magnitude
of the pixel's seed c (the final iterate's magnitude is not used). -/
theorem claim_C1_amended (iterF : Cplx ℝ → Cplx ℝ → Cplx ℝ) (m t : ℕ)
    (c z : Cplx ℝ) (h : engineResult iterF c m = .Escaped t z) :
    pclIndex iterF m c = (t : ℝ) + 1 - 1 / cAbs c := by
  obtain ⟨ht, _, _⟩ := engineTally_of_escaped iterF c m t z h
  simp only [pclIndex, smoothIters, ht]
  have hne2 : Real.log 2 ≠ 0 := ne_of_gt (Real.log_pos (by norm_num))
  by_cases hc : cAbs c = 0
  · rw [hc]
    norm_num
  · field_simp
    ring

theorem claim_C1_amended_witness :
    pclIndex mandelMap 2 ((3 : ℝ), 0) = ((0 : ℕ) : ℝ) + 1 - 1 / cAbs ((3 : ℝ), 0) :=
  claim_C1_amended mandelMap 2 0 ((3 : ℝ), 0) ((3 : ℝ), 0)
    (engineResult_seed_three 2 (by norm_num))

lemma pclChannel_zero_freq (p si : ℝ) :
    pclChannel (0, p, 0) si = Real.sin p * 255 := by
  simp [pclChannel]

/-- Claim C2 (code bug): the phased color loop performs no clamping or
truncation.  With channel parameters (frequency, phase, minimum) =
(0, −π/2, 0) — inside the claim's quantified range — the red channel of
the produced color is −255, not an integer in [0,255]; only the later
write into the host's Uint8ClampedArray clamps.  The alpha channel is
255 as claimed. -/
theorem claim_C2_no_clamping :
    (makePhasedColorLoop ((0, -(Real.pi / 2), 0), (0, -(Real.pi / 2), 0),
        (0, -(Real.pi / 2), 0)) 1 ((3 : ℝ), 0)).1 = -255 ∧
    ¬(0 ≤ (-255 : ℝ)) ∧
    (makePhasedColorLoop ((0, -(Real.pi / 2), 0), (0, -(Real.pi / 2), 0),
        (0, -(Real.pi / 2), 0)) 1 ((3 : ℝ), 0)).2.2.2 = 255 := by
  refine ⟨?_, by norm_num, rfl⟩
  show pclChannel (0, -(Real.pi / 2), 0)
    (smoothIters ((1 : ℕ) : ℝ) ((3 : ℝ), 0)) = -255
  rw [pclChannel_zero_freq, Real.sin_neg, Real.sin_pi_div_two]
  norm_num

end Fractus
